import Mathlib

/-!
Verification of the GeoViz Data Tool Utility (GeoViz_Compatibility_Tool.py and
GeoViz_Validator.py) against its natural-language specification.

Modelling conventions:
* Python floats are modelled as exact rationals (ℚ); `int(np.ceil(x))` is
  modelled as `Int.ceil` (identical to NumPy ceiling followed by `int` on
  every real argument, negative arguments included).
* A labelled dataset is modelled by its two governing dimension sizes and a
  finite map from variable names to variable contents, plus global attributes.
* Console printing is not modelled; the observable control flow of
  `create_fragments` is modelled as a trace of events.
-/

/-- Evaluation helper: the ceiling of a concrete rational, certified by the
two inequalities that characterise it. -/
theorem ceil_eval {q : ℚ} {z : ℤ} (h1 : (z : ℚ) - 1 < q) (h2 : q ≤ (z : ℚ)) :
    ⌈q⌉ = z :=
  Int.ceil_eq_iff.mpr ⟨h1, h2⟩

/-! ## Memory Budget Estimator — `estimate_memory_requirements` -/

/-- Result tuple of `estimate_memory_requirements`:
`(estimated_mb, available_mb, is_safe, recommended_percentage)`. -/
structure MemEstimate where
  estimated_mb : ℚ
  available_mb : ℚ
  is_safe : Bool
  recommended_percentage : ℚ

/-- Embedding of `estimate_memory_requirements(ds, percentage)`.
The dataset handle contributes `n_traj = ds.sizes['trajectory']`,
`n_time = ds.sizes['time']` and `n_vars = len(ds.data_vars)`; the machine
contributes `available_mb` (from `psutil`).  The arithmetic follows the
source line by line:
`frag_traj = int(np.ceil(n_traj * percentage / 100))`,
`frag_bytes = frag_traj * n_time * 4 * n_vars`,
`estimated_mb = (frag_bytes / 1024**2) * 3`,
`is_safe = estimated_mb < available_mb * 0.5`, and when unsafe
`recommended_percentage = max(1.0, min(100.0, (available_mb*0.3/estimated_mb) * percentage))`. -/
def estimate_memory_requirements (n_traj n_time n_vars : ℕ)
    (available_mb : ℚ) (percentage : ℚ) : MemEstimate :=
  let frag_traj : ℤ := ⌈(n_traj : ℚ) * percentage / 100⌉
  let frag_bytes : ℚ := (frag_traj : ℚ) * (n_time : ℚ) * 4 * (n_vars : ℚ)
  let estimated_mb : ℚ := frag_bytes / (1024 ^ 2) * 3
  let is_safe : Bool := decide (estimated_mb < available_mb * (1 / 2))
  let recommended_percentage : ℚ :=
    if is_safe then percentage
    else
      let target_mb := available_mb * (3 / 10)
      max 1 (min 100 (target_mb / estimated_mb * percentage))
  ⟨estimated_mb, available_mb, is_safe, recommended_percentage⟩

example : (estimate_memory_requirements 1 1 1 0 1).is_safe = false := by
  have h : ⌈((1 : ℕ) : ℚ) * (1 : ℚ) / 100⌉ = 1 :=
    ceil_eval (by norm_num) (by norm_num)
  simp only [estimate_memory_requirements, h]
  norm_num

example :
    (estimate_memory_requirements 1 1 1 0 1).recommended_percentage = 1 := by
  have h : ⌈((1 : ℕ) : ℚ) * (1 : ℚ) / 100⌉ = 1 :=
    ceil_eval (by norm_num) (by norm_num)
  simp only [estimate_memory_requirements, h]
  norm_num

/-! ## Partition Planner — the fragment loop of `create_fragments` -/

/-- `trajectories_per_fragment = int(np.ceil(n_traj * percentage / 100))`.
Modelled as a natural number: the value is only computed after the guard
`0 < percentage ≤ 100` has passed, where the ceiling is positive. -/
def trajectories_per_fragment (n_traj : ℕ) (percentage : ℚ) : ℕ :=
  (⌈(n_traj : ℚ) * percentage / 100⌉).toNat

/-- `num_fragments = int(np.ceil(n_traj / trajectories_per_fragment))`. -/
def num_fragments (n_traj : ℕ) (percentage : ℚ) : ℕ :=
  (⌈(n_traj : ℚ) / (trajectories_per_fragment n_traj percentage : ℚ)⌉).toNat

/-- The partition plan of the fragment loop: for `i in range(num_fragments)`,
`start_idx = i * trajectories_per_fragment` and
`end_idx = min((i + 1) * trajectories_per_fragment, n_traj)`. -/
def fragment_ranges (n_traj : ℕ) (percentage : ℚ) : List (ℕ × ℕ) :=
  (List.range (num_fragments n_traj percentage)).map
    (fun i => (i * trajectories_per_fragment n_traj percentage,
               min ((i + 1) * trajectories_per_fragment n_traj percentage) n_traj))

theorem one_le_trajectories_per_fragment (n : ℕ) (p : ℚ)
    (hn : 1 ≤ n) (hp0 : 0 < p) : 1 ≤ trajectories_per_fragment n p := by
  unfold trajectories_per_fragment
  have hpos : (0 : ℚ) < (n : ℚ) * p / 100 := by
    apply div_pos (mul_pos _ hp0) (by norm_num)
    exact_mod_cast Nat.lt_of_lt_of_le Nat.zero_lt_one hn
  have := Int.ceil_pos.mpr hpos
  omega

theorem trajectories_per_fragment_cast (n : ℕ) (p : ℚ)
    (hn : 1 ≤ n) (hp0 : 0 < p) :
    (trajectories_per_fragment n p : ℤ) = ⌈(n : ℚ) * p / 100⌉ := by
  unfold trajectories_per_fragment
  have hpos : (0 : ℚ) < (n : ℚ) * p / 100 := by
    apply div_pos (mul_pos _ hp0) (by norm_num)
    exact_mod_cast Nat.lt_of_lt_of_le Nat.zero_lt_one hn
  exact Int.toNat_of_nonneg (le_of_lt (Int.ceil_pos.mpr hpos))

theorem one_le_num_fragments (n : ℕ) (p : ℚ)
    (hn : 1 ≤ n) (hp0 : 0 < p) : 1 ≤ num_fragments n p := by
  unfold num_fragments
  have ht := one_le_trajectories_per_fragment n p hn hp0
  have hpos : (0 : ℚ) < (n : ℚ) / (trajectories_per_fragment n p : ℚ) := by
    apply div_pos
    · exact_mod_cast Nat.lt_of_lt_of_le Nat.zero_lt_one hn
    · exact_mod_cast Nat.lt_of_lt_of_le Nat.zero_lt_one ht
  have := Int.ceil_pos.mpr hpos
  omega

theorem le_num_fragments_mul (n : ℕ) (p : ℚ) (hn : 1 ≤ n) (hp0 : 0 < p) :
    n ≤ num_fragments n p * trajectories_per_fragment n p := by
  have ht := one_le_trajectories_per_fragment n p hn hp0
  have htq : (0 : ℚ) < (trajectories_per_fragment n p : ℚ) := by
    exact_mod_cast Nat.lt_of_lt_of_le Nat.zero_lt_one ht
  have hle : ((n : ℚ) / (trajectories_per_fragment n p : ℚ)) ≤
      (⌈(n : ℚ) / (trajectories_per_fragment n p : ℚ)⌉ : ℚ) := Int.le_ceil _
  have hNc : ((num_fragments n p : ℤ) : ℚ) =
      ((⌈(n : ℚ) / (trajectories_per_fragment n p : ℚ)⌉ : ℤ) : ℚ) := by
    unfold num_fragments
    congr 1
    refine Int.toNat_of_nonneg (le_of_lt (Int.ceil_pos.mpr ?_))
    apply div_pos _ htq
    exact_mod_cast Nat.lt_of_lt_of_le Nat.zero_lt_one hn
  have h2 : (n : ℚ) ≤ (num_fragments n p : ℚ) * (trajectories_per_fragment n p : ℚ) := by
    rw [div_le_iff₀ htq] at hle
    calc (n : ℚ) ≤ (⌈(n : ℚ) / (trajectories_per_fragment n p : ℚ)⌉ : ℚ) *
        (trajectories_per_fragment n p : ℚ) := hle
      _ = (num_fragments n p : ℚ) * (trajectories_per_fragment n p : ℚ) := by
          push_cast at hNc ⊢
          rw [hNc]
  exact_mod_cast h2

theorem num_fragments_pred_mul_lt (n : ℕ) (p : ℚ) (hn : 1 ≤ n) (hp0 : 0 < p) :
    (num_fragments n p - 1) * trajectories_per_fragment n p < n := by
  have ht := one_le_trajectories_per_fragment n p hn hp0
  have hN := one_le_num_fragments n p hn hp0
  have htq : (0 : ℚ) < (trajectories_per_fragment n p : ℚ) := by
    exact_mod_cast Nat.lt_of_lt_of_le Nat.zero_lt_one ht
  have hlt : (⌈(n : ℚ) / (trajectories_per_fragment n p : ℚ)⌉ : ℚ) <
      (n : ℚ) / (trajectories_per_fragment n p : ℚ) + 1 := Int.ceil_lt_add_one _
  have hNc : ((num_fragments n p : ℤ) : ℚ) =
      ((⌈(n : ℚ) / (trajectories_per_fragment n p : ℚ)⌉ : ℤ) : ℚ) := by
    unfold num_fragments
    congr 1
    refine Int.toNat_of_nonneg (le_of_lt (Int.ceil_pos.mpr ?_))
    apply div_pos _ htq
    exact_mod_cast Nat.lt_of_lt_of_le Nat.zero_lt_one hn
  have h2 : ((num_fragments n p : ℚ) - 1) * (trajectories_per_fragment n p : ℚ) < n := by
    push_cast at hNc
    rw [hNc]
    have : (⌈(n : ℚ) / (trajectories_per_fragment n p : ℚ)⌉ : ℚ) - 1 <
        (n : ℚ) / (trajectories_per_fragment n p : ℚ) := by linarith
    calc ((⌈(n : ℚ) / (trajectories_per_fragment n p : ℚ)⌉ : ℚ) - 1) *
          (trajectories_per_fragment n p : ℚ)
        < ((n : ℚ) / (trajectories_per_fragment n p : ℚ)) *
          (trajectories_per_fragment n p : ℚ) := by
          exact mul_lt_mul_of_pos_right this htq
      _ = (n : ℚ) := div_mul_cancel₀ _ (ne_of_gt htq)
  have h3 : ((num_fragments n p - 1 : ℕ) : ℚ) = (num_fragments n p : ℚ) - 1 := by
    push_cast [hN]
    ring
  rw [← h3] at h2
  exact_mod_cast h2

theorem fragment_ranges_getD (n : ℕ) (p : ℚ) (k : ℕ) (hk : k < num_fragments n p) :
    (fragment_ranges n p).getD k (0, 0) =
      (k * trajectories_per_fragment n p,
       min ((k + 1) * trajectories_per_fragment n p) n) := by
  unfold fragment_ranges
  rw [List.getD_eq_getElem?_getD, List.getElem?_map, List.getElem?_range hk]
  rfl

/-- C1: for every `traj_count ≥ 1` and every percentage in `(0,100]`, the
partition plan of `create_fragments` consists of contiguous, pairwise
disjoint, non-empty half-open ranges whose union is exactly `[0, traj_count)`;
the number of ranges equals `ceil(traj_count / ceil(traj_count*percentage/100))`,
and every range except possibly the last has exactly
`trajectories_per_fragment` elements. -/
theorem create_fragments_plan_partition (n : ℕ) (p : ℚ)
    (hn : 1 ≤ n) (hp0 : 0 < p) (hp1 : p ≤ 100) :
    (fragment_ranges n p).length = num_fragments n p ∧
    (num_fragments n p : ℤ) = ⌈(n : ℚ) / ((⌈(n : ℚ) * p / 100⌉ : ℤ) : ℚ)⌉ ∧
    ((fragment_ranges n p).getD 0 (0, 0)).1 = 0 ∧
    ((fragment_ranges n p).getD (num_fragments n p - 1) (0, 0)).2 = n ∧
    (∀ k, k < num_fragments n p →
      ((fragment_ranges n p).getD k (0, 0)).1 < ((fragment_ranges n p).getD k (0, 0)).2) ∧
    (∀ k, k + 1 < num_fragments n p →
      ((fragment_ranges n p).getD k (0, 0)).2 = ((fragment_ranges n p).getD (k + 1) (0, 0)).1) ∧
    (∀ i j, i < j → j < num_fragments n p →
      ((fragment_ranges n p).getD i (0, 0)).2 ≤ ((fragment_ranges n p).getD j (0, 0)).1) ∧
    (∀ x, x < n ↔ ∃ k, k < num_fragments n p ∧
      ((fragment_ranges n p).getD k (0, 0)).1 ≤ x ∧
      x < ((fragment_ranges n p).getD k (0, 0)).2) ∧
    (∀ k, k + 1 < num_fragments n p →
      ((fragment_ranges n p).getD k (0, 0)).2 - ((fragment_ranges n p).getD k (0, 0)).1 =
        trajectories_per_fragment n p) := by
  have ht := one_le_trajectories_per_fragment n p hn hp0
  have hN := one_le_num_fragments n p hn hp0
  have hcov := le_num_fragments_mul n p hn hp0
  have hlast := num_fragments_pred_mul_lt n p hn hp0
  have hfull : ∀ k, k + 1 < num_fragments n p →
      (k + 1) * trajectories_per_fragment n p ≤ n := by
    intro k hk
    have h1 : (k + 1) * trajectories_per_fragment n p ≤
        (num_fragments n p - 1) * trajectories_per_fragment n p :=
      Nat.mul_le_mul_right _ (by omega)
    omega
  refine ⟨?_, ?_, ?_, ?_, ?_, ?_, ?_, ?_, ?_⟩
  · unfold fragment_ranges
    simp
  · have hpos : (0 : ℚ) < (trajectories_per_fragment n p : ℚ) := by
      exact_mod_cast Nat.lt_of_lt_of_le Nat.zero_lt_one ht
    have hdiv : (0 : ℚ) < (n : ℚ) / (trajectories_per_fragment n p : ℚ) := by
      apply div_pos _ hpos
      exact_mod_cast Nat.lt_of_lt_of_le Nat.zero_lt_one hn
    have h1 : (num_fragments n p : ℤ) =
        ⌈(n : ℚ) / (trajectories_per_fragment n p : ℚ)⌉ := by
      unfold num_fragments
      exact Int.toNat_of_nonneg (le_of_lt (Int.ceil_pos.mpr hdiv))
    rw [h1, ← trajectories_per_fragment_cast n p hn hp0, Int.cast_natCast]
  · rw [fragment_ranges_getD n p 0 (by omega)]
    show 0 * trajectories_per_fragment n p = 0
    simp
  · rw [fragment_ranges_getD n p (num_fragments n p - 1) (by omega)]
    show min ((num_fragments n p - 1 + 1) * trajectories_per_fragment n p) n = n
    have hsucc : num_fragments n p - 1 + 1 = num_fragments n p := by omega
    rw [hsucc]
    exact min_eq_right hcov
  · intro k hk
    rw [fragment_ranges_getD n p k hk]
    show k * trajectories_per_fragment n p <
        min ((k + 1) * trajectories_per_fragment n p) n
    have h1 : k * trajectories_per_fragment n p ≤
        (num_fragments n p - 1) * trajectories_per_fragment n p :=
      Nat.mul_le_mul_right _ (by omega)
    have he : (k + 1) * trajectories_per_fragment n p =
        k * trajectories_per_fragment n p + trajectories_per_fragment n p := by ring
    omega
  · intro k hk
    rw [fragment_ranges_getD n p k (by omega), fragment_ranges_getD n p (k + 1) (by omega)]
    show min ((k + 1) * trajectories_per_fragment n p) n =
        (k + 1) * trajectories_per_fragment n p
    exact min_eq_left (hfull k hk)
  · intro i j hij hj
    rw [fragment_ranges_getD n p i (by omega), fragment_ranges_getD n p j hj]
    show min ((i + 1) * trajectories_per_fragment n p) n ≤
        j * trajectories_per_fragment n p
    have h1 : (i + 1) * trajectories_per_fragment n p ≤
        j * trajectories_per_fragment n p :=
      Nat.mul_le_mul_right _ (by omega)
    exact le_trans (Nat.min_le_left _ _) h1
  · intro x
    constructor
    · intro hx
      have hkN : x / trajectories_per_fragment n p < num_fragments n p := by
        refine (Nat.div_lt_iff_lt_mul (by omega)).mpr ?_
        calc x < n := hx
          _ ≤ num_fragments n p * trajectories_per_fragment n p := hcov
      refine ⟨x / trajectories_per_fragment n p, hkN, ?_, ?_⟩
      · rw [fragment_ranges_getD n p _ hkN]
        show x / trajectories_per_fragment n p * trajectories_per_fragment n p ≤ x
        exact Nat.div_mul_le_self x _
      · rw [fragment_ranges_getD n p _ hkN]
        show x < min ((x / trajectories_per_fragment n p + 1) *
            trajectories_per_fragment n p) n
        have hmod := Nat.div_add_mod x (trajectories_per_fragment n p)
        have hmlt : x % trajectories_per_fragment n p <
            trajectories_per_fragment n p := Nat.mod_lt x (by omega)
        have he : (x / trajectories_per_fragment n p + 1) *
            trajectories_per_fragment n p =
            trajectories_per_fragment n p * (x / trajectories_per_fragment n p) +
            trajectories_per_fragment n p := by ring
        omega
    · rintro ⟨k, hk, h1, h2⟩
      rw [fragment_ranges_getD n p k hk] at h2
      have h2' : x < min ((k + 1) * trajectories_per_fragment n p) n := h2
      exact lt_of_lt_of_le h2' (Nat.min_le_right _ _)
  · intro k hk
    rw [fragment_ranges_getD n p k (by omega)]
    show min ((k + 1) * trajectories_per_fragment n p) n -
        k * trajectories_per_fragment n p = trajectories_per_fragment n p
    have h1 := hfull k hk
    have he : (k + 1) * trajectories_per_fragment n p =
        k * trajectories_per_fragment n p + trajectories_per_fragment n p := by ring
    omega

/-- C1 witness: the end-to-end scenario of the spec, `traj_count = 250`,
`percentage = 40`. -/
theorem create_fragments_plan_partition_witness :
    1 ≤ 250 ∧ (0 : ℚ) < 40 ∧ (40 : ℚ) ≤ 100 ∧
    (fragment_ranges 250 40).length = num_fragments 250 40 :=
  ⟨by norm_num, by norm_num, by norm_num,
   (create_fragments_plan_partition 250 40 (by norm_num) (by norm_num)
     (by norm_num)).1⟩

/-- C2: the estimator computes
`estimated_bytes = ceil(traj_count*percentage/100) * time_count * 4 * variable_count * 3`
(exposed in megabytes, i.e. divided by `1024^2`), and classifies the plan safe
iff this estimate is strictly below half the available memory. -/
theorem estimate_memory_requirements_spec (n_traj n_time n_vars : ℕ)
    (avail p : ℚ) :
    (estimate_memory_requirements n_traj n_time n_vars avail p).estimated_mb * 1024 ^ 2 =
      ((⌈(n_traj : ℚ) * p / 100⌉ : ℤ) : ℚ) * (n_time : ℚ) * 4 * (n_vars : ℚ) * 3 ∧
    ((estimate_memory_requirements n_traj n_time n_vars avail p).is_safe = true ↔
      (estimate_memory_requirements n_traj n_time n_vars avail p).estimated_mb * 1024 ^ 2 <
        (1 / 2) * (avail * 1024 ^ 2)) := by
  constructor
  · simp only [estimate_memory_requirements]
    field_simp
  · simp only [estimate_memory_requirements, decide_eq_true_eq]
    rw [show (1 / 2 : ℚ) * (avail * 1024 ^ 2) = avail * (1 / 2) * 1024 ^ 2 by ring]
    exact (mul_lt_mul_right (by positivity)).symm

/-- C3 (amended): for a fixed dataset shape the estimate is non-decreasing in
the percentage; and whenever the estimator reports unsafe for a percentage in
`(1, 100]` (on a non-degenerate dataset and a non-negative amount of available
memory) the recommended percentage is strictly below the input percentage.
For percentages at or below 1 the recommendation is clamped up to the floor
value 1 and need not be below the input (see the counterexample). -/
theorem estimate_monotone_and_recommendation (n_traj n_time n_vars : ℕ)
    (avail : ℚ) (hn : 1 ≤ n_traj) (htm : 1 ≤ n_time) (hv : 1 ≤ n_vars)
    (ha : 0 ≤ avail) :
    (∀ p1 p2 : ℚ, p1 ≤ p2 →
      (estimate_memory_requirements n_traj n_time n_vars avail p1).estimated_mb ≤
        (estimate_memory_requirements n_traj n_time n_vars avail p2).estimated_mb) ∧
    (∀ p : ℚ, 1 < p → p ≤ 100 →
      (estimate_memory_requirements n_traj n_time n_vars avail p).is_safe = false →
      (estimate_memory_requirements n_traj n_time n_vars avail p).recommended_percentage
        < p) := by
  constructor
  · intro p1 p2 hp
    simp only [estimate_memory_requirements]
    have hc : ((⌈(n_traj : ℚ) * p1 / 100⌉ : ℤ) : ℚ) ≤
        ((⌈(n_traj : ℚ) * p2 / 100⌉ : ℤ) : ℚ) := by
      have harg : (n_traj : ℚ) * p1 / 100 ≤ (n_traj : ℚ) * p2 / 100 := by
        apply div_le_div_of_nonneg_right ?_ (by norm_num)
        exact mul_le_mul_of_nonneg_left hp (by positivity)
      exact_mod_cast Int.ceil_le_ceil harg
    have h1 : ((⌈(n_traj : ℚ) * p1 / 100⌉ : ℤ) : ℚ) * (n_time : ℚ) * 4 * (n_vars : ℚ) ≤
        ((⌈(n_traj : ℚ) * p2 / 100⌉ : ℤ) : ℚ) * (n_time : ℚ) * 4 * (n_vars : ℚ) := by
      apply mul_le_mul_of_nonneg_right _ (by positivity)
      apply mul_le_mul_of_nonneg_right _ (by norm_num)
      exact mul_le_mul_of_nonneg_right hc (by positivity)
    apply mul_le_mul_of_nonneg_right _ (by norm_num)
    rw [div_eq_mul_inv, div_eq_mul_inv]
    exact mul_le_mul_of_nonneg_right h1 (by positivity)
  · intro p hp1 hp100 hnotsafe
    simp only [estimate_memory_requirements] at hnotsafe ⊢
    have hq : avail * (1 / 2) ≤
        (⌈(n_traj : ℚ) * p / 100⌉ : ℚ) * (n_time : ℚ) * 4 * (n_vars : ℚ) /
          1024 ^ 2 * 3 := by
      have h := hnotsafe
      rwa [decide_eq_false_iff_not, not_lt] at h
    have hXpos : (0 : ℤ) < ⌈(n_traj : ℚ) * p / 100⌉ := by
      apply Int.ceil_pos.mpr
      have hnq : (0 : ℚ) < (n_traj : ℚ) := by
        exact_mod_cast Nat.lt_of_lt_of_le Nat.zero_lt_one hn
      have hp0 : (0 : ℚ) < p := by linarith
      positivity
    have hX : (1 : ℚ) ≤ (⌈(n_traj : ℚ) * p / 100⌉ : ℚ) := by exact_mod_cast hXpos
    have hT : (1 : ℚ) ≤ (n_time : ℚ) := by exact_mod_cast htm
    have hV : (1 : ℚ) ≤ (n_vars : ℚ) := by exact_mod_cast hv
    have hest : (0 : ℚ) <
        (⌈(n_traj : ℚ) * p / 100⌉ : ℚ) * (n_time : ℚ) * 4 * (n_vars : ℚ) /
          1024 ^ 2 * 3 := by
      have hp1' : (0 : ℚ) < (⌈(n_traj : ℚ) * p / 100⌉ : ℚ) * (n_time : ℚ) * 4 *
          (n_vars : ℚ) := by
        apply mul_pos (mul_pos (mul_pos _ _) (by norm_num)) <;> linarith
      positivity
    rw [if_neg (by rw [hnotsafe]; exact Bool.false_ne_true)]
    have hraw :
        avail * (3 / 10) /
          ((⌈(n_traj : ℚ) * p / 100⌉ : ℚ) * (n_time : ℚ) * 4 * (n_vars : ℚ) /
            1024 ^ 2 * 3) * p ≤ 3 / 5 * p := by
      apply mul_le_mul_of_nonneg_right _ (by linarith : (0 : ℚ) ≤ p)
      rw [div_le_iff₀ hest]
      nlinarith [hq]
    have hrawlt :
        avail * (3 / 10) /
          ((⌈(n_traj : ℚ) * p / 100⌉ : ℚ) * (n_time : ℚ) * 4 * (n_vars : ℚ) /
            1024 ^ 2 * 3) * p < p := by
      have h35 : (3 : ℚ) / 5 * p < p := by linarith
      linarith
    exact max_lt hp1 (lt_of_le_of_lt (min_le_right _ _) hrawlt)

/-- C3 witness: at shape 100×1000×10 with 0.1 MB of available memory and
percentage 10, the estimator reports unsafe (estimate ≈ 1.14 MB is not below
0.05 MB), and the theorem yields a recommendation strictly below 10. -/
theorem estimate_monotone_and_recommendation_witness :
    1 ≤ 100 ∧ 1 ≤ 1000 ∧ 1 ≤ 10 ∧ (0 : ℚ) ≤ 1 / 10 ∧
    (1 : ℚ) < 10 ∧ (10 : ℚ) ≤ 100 ∧
    (estimate_memory_requirements 100 1000 10 (1 / 10) 10).is_safe = false ∧
    (estimate_memory_requirements 100 1000 10 (1 / 10) 10).recommended_percentage
      < 10 := by
  have hceil : ⌈((100 : ℕ) : ℚ) * (10 : ℚ) / 100⌉ = 10 :=
    ceil_eval (by norm_num) (by norm_num)
  have hnotsafe :
      (estimate_memory_requirements 100 1000 10 (1 / 10) 10).is_safe = false := by
    simp only [estimate_memory_requirements, hceil]
    norm_num
  refine ⟨by norm_num, by norm_num, by norm_num, by norm_num, by norm_num,
    by norm_num, hnotsafe, ?_⟩
  exact (estimate_monotone_and_recommendation 100 1000 10 (1 / 10) (by norm_num)
    (by norm_num) (by norm_num) (by norm_num)).2 10 (by norm_num) (by norm_num)
    hnotsafe

/-- C3 counterexample: at percentage 1 (inside `(0,100]`) with little
available memory the estimator reports unsafe, yet the recommendation is
clamped up to 1 and is not strictly below the input percentage. -/
theorem estimate_recommendation_cex :
    (estimate_memory_requirements 100 1 1 (1 / 100000) 1).is_safe = false ∧
    ¬ ((estimate_memory_requirements 100 1 1 (1 / 100000) 1).recommended_percentage
        < 1) := by
  have h : ⌈((100 : ℕ) : ℚ) * (1 : ℚ) / 100⌉ = 1 :=
    ceil_eval (by norm_num) (by norm_num)
  constructor
  · simp only [estimate_memory_requirements, h]
    norm_num
  · simp only [estimate_memory_requirements, h]
    norm_num

/-! ## Fragmentation Orchestrator — control flow of `create_fragments` -/

/-- Observable events of a `create_fragments` run, in program order:
opening the source dataset, running the memory check (the estimator plus the
optional confirmation prompt), closing the dataset, returning after
cancellation, raising `ValueError("Percentage must be between 0 and 100")`,
computing the fragmentation plan, and writing fragment `k`. -/
inductive FragEvent where
  | openDs : FragEvent
  | memCheck : FragEvent
  | closeDs : FragEvent
  | cancelled : FragEvent
  | raiseInvalidPercentage : FragEvent
  | planned : FragEvent
  | wrote : ℕ → FragEvent
deriving DecidableEq

/-- Inputs of one `create_fragments` run: the dataset shape and variable
count read from the source file, the machine's available memory, the
requested percentage, and the user's answer to the confirmation prompt
(`response == 'y'`). -/
structure RunConfig where
  n_traj : ℕ
  n_time : ℕ
  n_vars : ℕ
  available_mb : ℚ
  percentage : ℚ
  confirm : Bool

/-- Embedding of `check_memory_safety(ds, percentage)`: returns `True` when
the estimate is safe, otherwise the confirmation answer. -/
def check_memory_safety (c : RunConfig) : Bool :=
  if (estimate_memory_requirements c.n_traj c.n_time c.n_vars
      c.available_mb c.percentage).is_safe then true
  else c.confirm

/-- Embedding of the control flow of `create_fragments`, as the trace of
observable events together with the returned list of fragments (identified
by loop index).  Mirrors the source order: the dataset is opened first, then
the memory check runs; a declined unsafe check closes the dataset and
returns `[]`; only then is the percentage validated (raising on failure,
with the dataset left open); otherwise the plan is computed and each
fragment is written, and the dataset is closed. -/
def create_fragments_run (c : RunConfig) : List FragEvent × List ℕ :=
  if check_memory_safety c = false then
    ([.openDs, .memCheck, .closeDs, .cancelled], [])
  else if c.percentage ≤ 0 ∨ 100 < c.percentage then
    ([.openDs, .memCheck, .raiseInvalidPercentage], [])
  else
    ([.openDs, .memCheck, .planned] ++
       (List.range (num_fragments c.n_traj c.percentage)).map .wrote ++ [.closeDs],
     List.range (num_fragments c.n_traj c.percentage))

/-- C4 (amended): an out-of-range percentage raises `ValueError` only after
the source dataset has been opened and the memory estimation (with its
confirmation gate) has run; the failure still precedes planning and any
fragment write, and no fragment is returned. -/
theorem create_fragments_invalid_percentage_after_open (c : RunConfig)
    (hp : c.percentage ≤ 0 ∨ 100 < c.percentage)
    (hgate : check_memory_safety c = true) :
    create_fragments_run c =
      ([.openDs, .memCheck, .raiseInvalidPercentage], []) ∧
    FragEvent.openDs ∈ (create_fragments_run c).1 ∧
    FragEvent.memCheck ∈ (create_fragments_run c).1 ∧
    FragEvent.planned ∉ (create_fragments_run c).1 ∧
    (∀ k, FragEvent.wrote k ∉ (create_fragments_run c).1) ∧
    (create_fragments_run c).2 = [] := by
  have h1 : create_fragments_run c =
      ([.openDs, .memCheck, .raiseInvalidPercentage], []) := by
    unfold create_fragments_run
    rw [hgate]
    simp [hp]
  refine ⟨h1, ?_, ?_, ?_, ?_, ?_⟩ <;> rw [h1] <;> simp

/-- C4 counterexample: at percentage 150 on a small dataset with ample
memory, the claim as stated — the run fails before the estimator runs and
before the dataset is opened — is false: the trace opens the dataset and
runs the memory check before raising. -/
theorem create_fragments_invalid_percentage_cex :
    ¬ (FragEvent.raiseInvalidPercentage ∈
        (create_fragments_run (⟨1, 1, 1, 1000000, 150, true⟩ : RunConfig)).1 ∧
       FragEvent.openDs ∉
        (create_fragments_run (⟨1, 1, 1, 1000000, 150, true⟩ : RunConfig)).1 ∧
       FragEvent.memCheck ∉
        (create_fragments_run (⟨1, 1, 1, 1000000, 150, true⟩ : RunConfig)).1) := by
  have hceil : ⌈((1 : ℕ) : ℚ) * (150 : ℚ) / 100⌉ = 2 :=
    ceil_eval (by norm_num) (by norm_num)
  have hsafe : check_memory_safety (⟨1, 1, 1, 1000000, 150, true⟩ : RunConfig)
      = true := by
    unfold check_memory_safety
    simp only [estimate_memory_requirements, hceil]
    norm_num
  have h1 : create_fragments_run (⟨1, 1, 1, 1000000, 150, true⟩ : RunConfig) =
      ([.openDs, .memCheck, .raiseInvalidPercentage], []) := by
    unfold create_fragments_run
    rw [hsafe]
    norm_num
  rw [h1]
  simp

/-- C7: when the memory estimate is classified unsafe and the confirmation
declines, the run is cancelled before planning: the source handle closes,
nothing is planned or written, and `create_fragments` returns an empty
list. -/
theorem create_fragments_cancelled_no_output (c : RunConfig)
    (hnotsafe : (estimate_memory_requirements c.n_traj c.n_time c.n_vars
      c.available_mb c.percentage).is_safe = false)
    (hdecline : c.confirm = false) :
    create_fragments_run c = ([.openDs, .memCheck, .closeDs, .cancelled], []) ∧
    FragEvent.closeDs ∈ (create_fragments_run c).1 ∧
    FragEvent.planned ∉ (create_fragments_run c).1 ∧
    (∀ k, FragEvent.wrote k ∉ (create_fragments_run c).1) ∧
    (create_fragments_run c).2 = [] := by
  have hg : check_memory_safety c = false := by
    unfold check_memory_safety
    rw [hnotsafe, hdecline]
    simp
  have h1 : create_fragments_run c =
      ([.openDs, .memCheck, .closeDs, .cancelled], []) := by
    unfold create_fragments_run
    rw [hg]
    simp
  refine ⟨h1, ?_, ?_, ?_, ?_⟩ <;> rw [h1] <;> simp

/-- C7 witness: a concrete unsafe run whose confirmation declines. -/
theorem create_fragments_cancelled_no_output_witness :
    (estimate_memory_requirements 1 1 1 0 10).is_safe = false ∧
    (create_fragments_run (⟨1, 1, 1, 0, 10, false⟩ : RunConfig)).2 = [] ∧
    FragEvent.closeDs ∈
      (create_fragments_run (⟨1, 1, 1, 0, 10, false⟩ : RunConfig)).1 := by
  have hceil : ⌈((1 : ℕ) : ℚ) * (10 : ℚ) / 100⌉ = 1 :=
    ceil_eval (by norm_num) (by norm_num)
  have hnotsafe : (estimate_memory_requirements 1 1 1 0 10).is_safe = false := by
    simp only [estimate_memory_requirements, hceil]
    norm_num
  have h := create_fragments_cancelled_no_output
    (⟨1, 1, 1, 0, 10, false⟩ : RunConfig) hnotsafe rfl
  exact ⟨hnotsafe, h.2.2.2.2, h.2.1⟩

/-! ## Variable Synthesizer — `add_missing_sediment_variables` -/

/-- A constant cell value of a synthesized array: `np.full` with a float,
a string (dtype object or fixed-width unicode), or an unsigned integer. -/
inductive NCValue where
  | floatVal : ℚ → NCValue
  | strVal : String → NCValue
  | natVal : ℕ → NCValue
deriving DecidableEq

/-- One dataset variable: its shape over `(trajectory, time)`, its dtype tag,
its per-cell contents, and its attributes (`units`, `long_name`, and the
optional `classes` enumeration string). -/
structure NCVar where
  shape : ℕ × ℕ
  dtype : String
  cell : ℕ → ℕ → NCValue
  units : String
  long_name : String
  classes : Option String

/-- A labelled dataset: governing dimension sizes, variables by name, and
global attributes by name. -/
structure Dataset where
  n_traj : ℕ
  n_time : ℕ
  vars : String → Option NCVar
  attrs : String → Option String

/-- Modelling of numpy dtype `'U6'` used for `particulate_size_class`:
fixed-width unicode storage keeps only the first 6 characters of the value
written into the array. -/
def truncateU6 (s : String) : String := ⟨s.data.take 6⟩

/-- `ds[name] = value` on the variable map. -/
def insertVar (vars : String → Option NCVar) (name : String) (v : NCVar) :
    String → Option NCVar :=
  fun s => if s = name then some v else vars s

/-- One `if name not in ds.variables: ds[name] = ...; added_vars.append(...)`
block of the source, acting on the pair (variable map, added list).  The
added list records the variable name (the source appends the name together
with a rendering of the default value). -/
def addIfAbsent (st : (String → Option NCVar) × List String)
    (name : String) (v : NCVar) : (String → Option NCVar) × List String :=
  match st.1 name with
  | some _ => st
  | none => (insertVar st.1 name v, st.2 ++ [name])

/-- The seven derived variables, in source order, with the dtype, constant
value and attributes each one receives in `add_missing_sediment_variables`. -/
def sediment_var_specs (particle_class particle_size_class : String)
    (particle_diameter particle_density : ℚ) (n_traj n_time : ℕ) :
    List (String × NCVar) :=
  [("particulate_diameter",
    { shape := (n_traj, n_time), dtype := "float32",
      cell := fun _ _ => .floatVal particle_diameter,
      units := "m", long_name := "Particle diameter", classes := none }),
   ("particulate_density",
    { shape := (n_traj, n_time), dtype := "float32",
      cell := fun _ _ => .floatVal particle_density,
      units := "kg m-3", long_name := "Particle density", classes := none }),
   ("particulate_class",
    { shape := (n_traj, n_time), dtype := "object",
      cell := fun _ _ => .strVal particle_class,
      units := "", long_name := "Particle classification",
      classes := some ("oil,other,bubble,faecal_pellets,copepod,diatom_chain,oily_gas") }),
   ("particulate_size_class",
    { shape := (n_traj, n_time), dtype := "U6",
      cell := fun _ _ => .strVal (truncateU6 particle_size_class),
      units := "", long_name := "Particle size classification",
      classes := some ("small,medium,large") }),
   ("settled",
    { shape := (n_traj, n_time), dtype := "uint8",
      cell := fun _ _ => .natVal 0,
      units := "1", long_name := "Particle settled on seafloor", classes := none }),
   ("ocean_vertical_diffusivity",
    { shape := (n_traj, n_time), dtype := "float32",
      cell := fun _ _ => .floatVal (2 / 100),
      units := "m²/s", long_name := "Ocean vertical diffusivity", classes := none }),
   ("ocean_mixed_layer_thickness",
    { shape := (n_traj, n_time), dtype := "float32",
      cell := fun _ _ => .floatVal 50,
      units := "m", long_name := "Ocean mixed layer thickness", classes := none })]

/-- The seven derived variable names, in source order. -/
def sediment_var_names : List String :=
  ["particulate_diameter", "particulate_density", "particulate_class",
   "particulate_size_class", "settled", "ocean_vertical_diffusivity",
   "ocean_mixed_layer_thickness"]

/-- Embedding of `add_missing_sediment_variables(ds, ...)`: each of the seven
variables is inserted when absent; finally the global attribute
`opendrift_class = 'SedimentDrift'` is set if absent.  Returns the mutated
dataset together with the list of added variables. -/
def add_missing_sediment_variables (ds : Dataset)
    (particle_class particle_size_class : String)
    (particle_diameter particle_density : ℚ) : Dataset × List String :=
  let specs := sediment_var_specs particle_class particle_size_class
    particle_diameter particle_density ds.n_traj ds.n_time
  let st := specs.foldl (fun st p => addIfAbsent st p.1 p.2) (ds.vars, [])
  let attrs2 : String → Option String :=
    if (ds.attrs ("opendrift_class")).isSome then ds.attrs
    else fun s => if s = "opendrift_class" then some ("SedimentDrift")
      else ds.attrs s
  ({ ds with vars := st.1, attrs := attrs2 }, st.2)

/-- The millimetre-to-metre conversion of the interactive prompt:
`particle_diameter = float(diameter_input) / 1000 if diameter_input else 0.0001`. -/
def interactive_particle_diameter (diameter_input : Option ℚ) : ℚ :=
  match diameter_input with
  | some d => d / 1000
  | none => 1 / 10000

theorem addIfAbsent_preserve (st : (String → Option NCVar) × List String)
    (name : String) (v : NCVar) (s : String) (w : NCVar)
    (h : st.1 s = some w) : (addIfAbsent st name v).1 s = some w := by
  unfold addIfAbsent
  split
  · exact h
  · next hl =>
    unfold insertVar
    have hs : s ≠ name := by
      intro he
      rw [he, hl] at h
      exact Option.noConfusion h
    simp only [hs, if_false]
    exact h

theorem addIfAbsent_other (st : (String → Option NCVar) × List String)
    (name : String) (v : NCVar) (s : String) (hs : s ≠ name) :
    (addIfAbsent st name v).1 s = st.1 s := by
  unfold addIfAbsent
  split
  · rfl
  · unfold insertVar
    simp only [hs, if_false]

theorem addIfAbsent_self_isSome (st : (String → Option NCVar) × List String)
    (name : String) (v : NCVar) : ((addIfAbsent st name v).1 name).isSome := by
  unfold addIfAbsent
  split
  · next hl => simp [hl]
  · unfold insertVar
    simp

theorem foldl_addIfAbsent_preserve (specs : List (String × NCVar))
    (st : (String → Option NCVar) × List String) (s : String) (w : NCVar)
    (h : st.1 s = some w) :
    ((specs.foldl (fun st p => addIfAbsent st p.1 p.2) st).1 s = some w) := by
  induction specs generalizing st with
  | nil => exact h
  | cons hd tl ih =>
    exact ih _ (addIfAbsent_preserve st hd.1 hd.2 s w h)

theorem foldl_addIfAbsent_isSome (specs : List (String × NCVar))
    (st : (String → Option NCVar) × List String) (s : String)
    (h : (st.1 s).isSome) :
    (((specs.foldl (fun st p => addIfAbsent st p.1 p.2) st).1 s).isSome) := by
  obtain ⟨w, hw⟩ := Option.isSome_iff_exists.mp h
  rw [foldl_addIfAbsent_preserve specs st s w hw]
  rfl

theorem foldl_addIfAbsent_mem (specs : List (String × NCVar))
    (st : (String → Option NCVar) × List String) (s : String)
    (hs : s ∈ specs.map Prod.fst) :
    (((specs.foldl (fun st p => addIfAbsent st p.1 p.2) st).1 s).isSome) := by
  induction specs generalizing st with
  | nil => simp at hs
  | cons hd tl ih =>
    rcases List.mem_map.mp hs with ⟨q, hq, hqs⟩
    rcases List.mem_cons.mp hq with rfl | hqtl
    · rw [List.foldl_cons]
      by_cases hmem : s ∈ tl.map Prod.fst
      · exact ih _ hmem
      · apply foldl_addIfAbsent_isSome
        rw [← hqs]
        exact addIfAbsent_self_isSome st q.1 q.2
    · rw [List.foldl_cons]
      exact ih _ (hqs ▸ List.mem_map_of_mem Prod.fst hqtl)

theorem foldl_addIfAbsent_id (specs : List (String × NCVar))
    (st : (String → Option NCVar) × List String)
    (h : ∀ p ∈ specs, (st.1 p.1).isSome) :
    specs.foldl (fun st p => addIfAbsent st p.1 p.2) st = st := by
  induction specs generalizing st with
  | nil => rfl
  | cons hd tl ih =>
    have h1 : addIfAbsent st hd.1 hd.2 = st := by
      unfold addIfAbsent
      split
      · rfl
      · next hl =>
        have := h hd (List.mem_cons_self hd tl)
        rw [hl] at this
        exact absurd this (by simp)
    rw [List.foldl_cons, h1]
    exact ih st (fun p hp => h p (List.mem_cons_of_mem hd hp))

theorem foldl_addIfAbsent_other (specs : List (String × NCVar))
    (st : (String → Option NCVar) × List String) (s : String)
    (hs : s ∉ specs.map Prod.fst) :
    ((specs.foldl (fun st p => addIfAbsent st p.1 p.2) st).1 s = st.1 s) := by
  induction specs generalizing st with
  | nil => rfl
  | cons hd tl ih =>
    rw [List.foldl_cons]
    have hshd : s ≠ hd.1 := by
      intro he
      exact hs (by rw [he]; exact List.mem_map_of_mem Prod.fst (List.mem_cons_self hd tl))
    rw [ih _ (fun hmem => hs (List.mem_map.mp hmem |>.elim
      (fun q hq => List.mem_map.mpr ⟨q, List.mem_cons_of_mem hd hq.1, hq.2⟩)))]
    exact addIfAbsent_other st hd.1 hd.2 s hshd

theorem foldl_addIfAbsent_insert (specs : List (String × NCVar))
    (st : (String → Option NCVar) × List String) (s : String) (v : NCVar)
    (habs : st.1 s = none) (hmem : (s, v) ∈ specs)
    (hnodup : (specs.map Prod.fst).Nodup) :
    ((specs.foldl (fun st p => addIfAbsent st p.1 p.2) st).1 s = some v) := by
  induction specs generalizing st with
  | nil => simp at hmem
  | cons hd tl ih =>
    rw [List.foldl_cons]
    rcases List.mem_cons.mp hmem with heq | htl
    · have h1 : (addIfAbsent st hd.1 hd.2).1 s = some v := by
        rw [← heq]
        unfold addIfAbsent
        simp only [← heq] at habs ⊢
        rw [habs]
        unfold insertVar
        simp
      exact foldl_addIfAbsent_preserve tl _ s v h1
    · have hs : s ≠ hd.1 := by
        have h2 : s ∈ tl.map Prod.fst := List.mem_map_of_mem Prod.fst htl
        have h3 : hd.1 ∉ tl.map Prod.fst := (List.nodup_cons.mp hnodup).1
        intro he
        rw [he] at h2
        exact h3 h2
      have h1 : (addIfAbsent st hd.1 hd.2).1 s = none := by
        rw [addIfAbsent_other st hd.1 hd.2 s hs]
        exact habs
      exact ih _ h1 htl (List.nodup_cons.mp hnodup).2

theorem sediment_var_specs_map_fst (pc psz : String) (pd pden : ℚ) (n m : ℕ) :
    (sediment_var_specs pc psz pd pden n m).map Prod.fst = sediment_var_names := rfl

theorem sediment_var_names_nodup : sediment_var_names.Nodup := by decide

/-- Unfolded form of `add_missing_sediment_variables`. -/
theorem add_missing_eq (ds : Dataset) (pc psz : String) (pd pden : ℚ) :
    add_missing_sediment_variables ds pc psz pd pden =
      ({ ds with
          vars := ((sediment_var_specs pc psz pd pden ds.n_traj ds.n_time).foldl
            (fun st p => addIfAbsent st p.1 p.2) (ds.vars, [])).1,
          attrs := if (ds.attrs ("opendrift_class")).isSome then ds.attrs
            else fun s => if s = "opendrift_class" then some ("SedimentDrift")
              else ds.attrs s },
       ((sediment_var_specs pc psz pd pden ds.n_traj ds.n_time).foldl
         (fun st p => addIfAbsent st p.1 p.2) (ds.vars, [])).2) := rfl

theorem add_missing_attrs_isSome (ds : Dataset) (pc psz : String)
    (pd pden : ℚ) :
    (((add_missing_sediment_variables ds pc psz pd pden).1.attrs)
      ("opendrift_class")).isSome := by
  rw [add_missing_eq]
  by_cases h : (ds.attrs ("opendrift_class")).isSome
  · show ((if (ds.attrs ("opendrift_class")).isSome then ds.attrs
      else fun s => if s = "opendrift_class" then some ("SedimentDrift")
        else ds.attrs s) ("opendrift_class")).isSome
    rw [if_pos h]
    exact h
  · show ((if (ds.attrs ("opendrift_class")).isSome then ds.attrs
      else fun s => if s = "opendrift_class" then some ("SedimentDrift")
        else ds.attrs s) ("opendrift_class")).isSome
    rw [if_neg h]
    simp

theorem add_missing_vars_isSome (ds : Dataset) (pc psz : String)
    (pd pden : ℚ) (s : String) (hs : s ∈ sediment_var_names) :
    ((add_missing_sediment_variables ds pc psz pd pden).1.vars s).isSome := by
  rw [add_missing_eq]
  exact foldl_addIfAbsent_mem _ _ s
    (by rw [sediment_var_specs_map_fst]; exact hs)

/-- C5: variable synthesis never overwrites and is idempotent: pre-existing
variables keep their values, variables outside the seven are untouched, every
one of the seven is present afterwards, and a second call on the result
changes nothing and reports an empty list of additions. -/
theorem add_missing_sediment_variables_idempotent (ds : Dataset)
    (pc psz : String) (pd pden : ℚ) :
    (add_missing_sediment_variables
      (add_missing_sediment_variables ds pc psz pd pden).1 pc psz pd pden).1 =
      (add_missing_sediment_variables ds pc psz pd pden).1 ∧
    (add_missing_sediment_variables
      (add_missing_sediment_variables ds pc psz pd pden).1 pc psz pd pden).2 = [] ∧
    (∀ s w, ds.vars s = some w →
      (add_missing_sediment_variables ds pc psz pd pden).1.vars s = some w) ∧
    (∀ s, s ∉ sediment_var_names →
      (add_missing_sediment_variables ds pc psz pd pden).1.vars s = ds.vars s) ∧
    (∀ s, s ∈ sediment_var_names →
      ((add_missing_sediment_variables ds pc psz pd pden).1.vars s).isSome) := by
  have hpresent2 : ∀ p ∈ sediment_var_specs pc psz pd pden
      (add_missing_sediment_variables ds pc psz pd pden).1.n_traj
      (add_missing_sediment_variables ds pc psz pd pden).1.n_time,
      (((add_missing_sediment_variables ds pc psz pd pden).1.vars, ([] : List String)).1
        p.1).isSome := by
    intro p hp
    exact add_missing_vars_isSome ds pc psz pd pden p.1
      (by
        have : p.1 ∈ (sediment_var_specs pc psz pd pden
            (add_missing_sediment_variables ds pc psz pd pden).1.n_traj
            (add_missing_sediment_variables ds pc psz pd pden).1.n_time).map Prod.fst :=
          List.mem_map_of_mem Prod.fst hp
        rwa [sediment_var_specs_map_fst] at this)
  have key : add_missing_sediment_variables
      (add_missing_sediment_variables ds pc psz pd pden).1 pc psz pd pden =
      ((add_missing_sediment_variables ds pc psz pd pden).1, []) := by
    rw [add_missing_eq ((add_missing_sediment_variables ds pc psz pd pden).1)]
    rw [foldl_addIfAbsent_id _ _ hpresent2]
    rw [if_pos (add_missing_attrs_isSome ds pc psz pd pden)]
  refine ⟨by rw [key], by rw [key], ?_, ?_, ?_⟩
  · intro s w h
    rw [add_missing_eq]
    exact foldl_addIfAbsent_preserve _ _ s w h
  · intro s hs
    rw [add_missing_eq]
    exact foldl_addIfAbsent_other _ _ s
      (by rw [sediment_var_specs_map_fst]; exact hs)
  · exact fun s hs => add_missing_vars_isSome ds pc psz pd pden s hs

/-- C5 witness: the second call on a concrete fragment adds nothing. -/
theorem add_missing_sediment_variables_idempotent_witness :
    (add_missing_sediment_variables
      (add_missing_sediment_variables
        (⟨2, 3, fun _ => none, fun _ => none⟩ : Dataset)
        ("other") ("medium") (1 / 10000) 1027).1
      ("other") ("medium") (1 / 10000) 1027).2 = [] :=
  (add_missing_sediment_variables_idempotent
    (⟨2, 3, fun _ => none, fun _ => none⟩ : Dataset)
    ("other") ("medium") (1 / 10000) 1027).2.1

/-- C6: a diameter supplied in millimetres through the interactive prompt is
divided by 1000 and stored in metres in every cell of the synthesized
`particulate_diameter` variable (with units attribute `m`); in particular a
5 mm diameter is stored as `5/1000 = 0.005`, which differs from both `5`
and `0.000005`. -/
theorem diameter_stored_in_meters (ds : Dataset) (pc psz : String)
    (pden dmm : ℚ) (habs : ds.vars ("particulate_diameter") = none) :
    ∃ v, (add_missing_sediment_variables ds pc psz
        (interactive_particle_diameter (some dmm)) pden).1.vars
        ("particulate_diameter") = some v ∧
      (∀ i j, v.cell i j = NCValue.floatVal (dmm / 1000)) ∧
      v.units = "m" ∧
      interactive_particle_diameter (some dmm) = dmm / 1000 ∧
      ((5 : ℚ) / 1000 = 1 / 200 ∧ (5 : ℚ) / 1000 ≠ 5 ∧
        (5 : ℚ) / 1000 ≠ 5 / 1000000) := by
  refine ⟨{ shape := (ds.n_traj, ds.n_time), dtype := "float32",
            cell := fun _ _ => .floatVal (interactive_particle_diameter (some dmm)),
            units := "m", long_name := "Particle diameter", classes := none },
    ?_, fun i j => rfl, rfl, rfl, by norm_num, by norm_num, by norm_num⟩
  rw [add_missing_eq]
  exact foldl_addIfAbsent_insert _ _ _ _ habs (List.mem_cons_self _ _)
    (sediment_var_specs_map_fst pc psz
      (interactive_particle_diameter (some dmm)) pden ds.n_traj ds.n_time ▸
      sediment_var_names_nodup)

/-- C6 witness: 5 mm on a concrete fragment is stored as `0.005` metres. -/
theorem diameter_stored_in_meters_witness :
    ((⟨3, 4, fun _ => none, fun _ => none⟩ : Dataset).vars
      ("particulate_diameter") = none) ∧
    ∃ v, (add_missing_sediment_variables
        (⟨3, 4, fun _ => none, fun _ => none⟩ : Dataset)
        ("other") ("medium") (interactive_particle_diameter (some 5)) 1027).1.vars
        ("particulate_diameter") = some v ∧
      (∀ i j, v.cell i j = NCValue.floatVal ((5 : ℚ) / 1000)) := by
  refine ⟨rfl, ?_⟩
  obtain ⟨v, h1, h2, -, -, -⟩ := diameter_stored_in_meters
    (⟨3, 4, fun _ => none, fun _ => none⟩ : Dataset) ("other") ("medium")
    1027 5 rfl
  exact ⟨v, h1, h2⟩

/-- C10: the synthesized `particulate_size_class` variable has numpy dtype
`'U6'` and stores the supplied size-class string truncated to its first 6
characters in every cell; a supplied value longer than 6 characters is
silently truncated and is not stored in full. -/
theorem size_class_truncated_to_six (ds : Dataset) (pc psz : String)
    (pd pden : ℚ) (habs : ds.vars ("particulate_size_class") = none) :
    ∃ v, (add_missing_sediment_variables ds pc psz pd pden).1.vars
        ("particulate_size_class") = some v ∧
      v.dtype = "U6" ∧
      (∀ i j, v.cell i j = NCValue.strVal (truncateU6 psz)) ∧
      (truncateU6 psz).length = min 6 psz.length ∧
      (6 < psz.length → truncateU6 psz ≠ psz) := by
  refine ⟨{ shape := (ds.n_traj, ds.n_time), dtype := "U6",
            cell := fun _ _ => .strVal (truncateU6 psz),
            units := "", long_name := "Particle size classification",
            classes := some ("small,medium,large") },
    ?_, rfl, fun i j => rfl, ?_, ?_⟩
  · rw [add_missing_eq]
    exact foldl_addIfAbsent_insert _ _ _ _ habs
      (List.mem_cons_of_mem _ (List.mem_cons_of_mem _ (List.mem_cons_of_mem _
        (List.mem_cons_self _ _))))
      (sediment_var_specs_map_fst pc psz pd pden ds.n_traj ds.n_time ▸
        sediment_var_names_nodup)
  · show (psz.data.take 6).length = min 6 psz.length
    have h : psz.length = psz.data.length := rfl
    rw [List.length_take, h]
  · intro hlen heq
    have h1 : psz.data.take 6 = psz.data := congrArg String.data heq
    have h2 := congrArg List.length h1
    rw [List.length_take] at h2
    have h3 : psz.length = psz.data.length := rfl
    omega

/-- C10 witness: an 8-character size class is stored as its first 6
characters. -/
theorem size_class_truncated_to_six_witness :
    ((⟨1, 1, fun _ => none, fun _ => none⟩ : Dataset).vars
      ("particulate_size_class") = none) ∧
    truncateU6 ("gigantic") = "gigant" ∧
    ∃ v, (add_missing_sediment_variables
        (⟨1, 1, fun _ => none, fun _ => none⟩ : Dataset)
        ("other") ("gigantic") (1 / 10000) 1027).1.vars
        ("particulate_size_class") = some v ∧
      (∀ i j, v.cell i j = NCValue.strVal (truncateU6 ("gigantic"))) := by
  refine ⟨rfl, rfl, ?_⟩
  obtain ⟨v, h1, -, h3, -, -⟩ := size_class_truncated_to_six
    (⟨1, 1, fun _ => none, fun _ => none⟩ : Dataset) ("other") ("gigantic")
    (1 / 10000) 1027 rfl
  exact ⟨v, h1, h3⟩

/-! ## Validator — `ValidationResult` and `validate_sediment_variables` -/

/-- The five message categories of `ValidationResult`.  The source prefixes
each message with a severity tag (and an emoji glyph, omitted here). -/
structure ValidationResult where
  errors : List String
  warnings : List String
  missing : List String
  info : List String
  passed : List String
deriving DecidableEq

def emptyValidationResult : ValidationResult := ⟨[], [], [], [], []⟩

def add_error (r : ValidationResult) (m : String) : ValidationResult :=
  { r with errors := r.errors ++ ["ERROR: " ++ m] }

def add_warning (r : ValidationResult) (m : String) : ValidationResult :=
  { r with warnings := r.warnings ++ ["WARNING: " ++ m] }

def add_missing (r : ValidationResult) (m : String) : ValidationResult :=
  { r with missing := r.missing ++ ["MISSING: " ++ m] }

def add_info (r : ValidationResult) (m : String) : ValidationResult :=
  { r with info := r.info ++ ["INFO: " ++ m] }

def add_pass (r : ValidationResult) (m : String) : ValidationResult :=
  { r with passed := r.passed ++ ["PASS: " ++ m] }

/-- `is_valid`: no critical errors. -/
def is_valid (r : ValidationResult) : Bool := r.errors.isEmpty

/-- `has_all_required`: no missing required variables. -/
def has_all_required (r : ValidationResult) : Bool := r.missing.isEmpty

/-- The required variables of `validate_sediment_variables`, with their
descriptions. -/
def required_sediment_vars : List (String × String) :=
  [("particulate_diameter", "Particle diameter"),
   ("particulate_density", "Particle density"),
   ("particulate_class", "Particle classification"),
   ("particulate_size_class", "Particle size classification"),
   ("settled", "Settlement status")]

/-- The optional variables of `validate_sediment_variables`, with their
descriptions. -/
def optional_sediment_vars : List (String × String) :=
  [("ocean_vertical_diffusivity", "Ocean vertical mixing coefficient"),
   ("ocean_mixed_layer_thickness", "Mixed layer depth")]

/-- Embedding of `validate_sediment_variables(ds)`: a present required
variable passes, an absent one is recorded as missing; a present optional
variable passes, an absent one is recorded as info. -/
def validate_sediment_variables (ds : Dataset) : ValidationResult :=
  let r1 := required_sediment_vars.foldl
    (fun r p =>
      if (ds.vars p.1).isSome then
        add_pass r ("Required variable " ++ p.1 ++ " present")
      else
        add_missing r (p.1 ++ " (" ++ p.2 ++ ")"))
    emptyValidationResult
  let r2 := optional_sediment_vars.foldl
    (fun r p =>
      if (ds.vars p.1).isSome then
        add_pass r ("Optional variable " ++ p.1 ++ " present")
      else
        add_info r ("Optional variable " ++ p.1 ++ " not present (" ++ p.2 ++ ")"))
    r1
  r2

theorem required_fold_characterization (ds : Dataset)
    (L : List (String × String)) (r0 : ValidationResult) :
    (L.foldl
      (fun r p =>
        if (ds.vars p.1).isSome then
          add_pass r ("Required variable " ++ p.1 ++ " present")
        else
          add_missing r (p.1 ++ " (" ++ p.2 ++ ")"))
      r0).errors = r0.errors ∧
    (L.foldl
      (fun r p =>
        if (ds.vars p.1).isSome then
          add_pass r ("Required variable " ++ p.1 ++ " present")
        else
          add_missing r (p.1 ++ " (" ++ p.2 ++ ")"))
      r0).info = r0.info ∧
    (L.foldl
      (fun r p =>
        if (ds.vars p.1).isSome then
          add_pass r ("Required variable " ++ p.1 ++ " present")
        else
          add_missing r (p.1 ++ " (" ++ p.2 ++ ")"))
      r0).missing = r0.missing ++
        (L.filter (fun p => (ds.vars p.1).isNone)).map
          (fun p => "MISSING: " ++ (p.1 ++ " (" ++ p.2 ++ ")")) := by
  induction L generalizing r0 with
  | nil => simp
  | cons hd tl ih =>
    rw [List.foldl_cons, List.filter_cons]
    by_cases h : (ds.vars hd.1).isSome
    · rw [if_pos h]
      have hn : (ds.vars hd.1).isNone = false := by
        cases hv : ds.vars hd.1 <;> simp_all
      obtain ⟨h1, h2, h3⟩ := ih (add_pass r0 ("Required variable " ++ hd.1 ++ " present"))
      refine ⟨?_, ?_, ?_⟩
      · rw [h1]; rfl
      · rw [h2]; rfl
      · rw [h3]
        simp [add_pass, hn]
    · rw [if_neg h]
      have hn : (ds.vars hd.1).isNone = true := by
        cases hv : ds.vars hd.1 <;> simp_all
      obtain ⟨h1, h2, h3⟩ := ih (add_missing r0 (hd.1 ++ " (" ++ hd.2 ++ ")"))
      refine ⟨?_, ?_, ?_⟩
      · rw [h1]; rfl
      · rw [h2]; rfl
      · rw [h3]
        simp [add_missing, hn]

theorem optional_fold_characterization (ds : Dataset)
    (L : List (String × String)) (r0 : ValidationResult) :
    (L.foldl
      (fun r p =>
        if (ds.vars p.1).isSome then
          add_pass r ("Optional variable " ++ p.1 ++ " present")
        else
          add_info r ("Optional variable " ++ p.1 ++ " not present (" ++ p.2 ++ ")"))
      r0).errors = r0.errors ∧
    (L.foldl
      (fun r p =>
        if (ds.vars p.1).isSome then
          add_pass r ("Optional variable " ++ p.1 ++ " present")
        else
          add_info r ("Optional variable " ++ p.1 ++ " not present (" ++ p.2 ++ ")"))
      r0).missing = r0.missing ∧
    (L.foldl
      (fun r p =>
        if (ds.vars p.1).isSome then
          add_pass r ("Optional variable " ++ p.1 ++ " present")
        else
          add_info r ("Optional variable " ++ p.1 ++ " not present (" ++ p.2 ++ ")"))
      r0).info = r0.info ++
        (L.filter (fun p => (ds.vars p.1).isNone)).map
          (fun p => "INFO: " ++ ("Optional variable " ++ p.1 ++ " not present (" ++ p.2 ++ ")")) := by
  induction L generalizing r0 with
  | nil => simp
  | cons hd tl ih =>
    rw [List.foldl_cons, List.filter_cons]
    by_cases h : (ds.vars hd.1).isSome
    · rw [if_pos h]
      have hn : (ds.vars hd.1).isNone = false := by
        cases hv : ds.vars hd.1 <;> simp_all
      obtain ⟨h1, h2, h3⟩ := ih (add_pass r0 ("Optional variable " ++ hd.1 ++ " present"))
      refine ⟨?_, ?_, ?_⟩
      · rw [h1]; rfl
      · rw [h2]; rfl
      · rw [h3]
        simp [add_pass, hn]
    · rw [if_neg h]
      have hn : (ds.vars hd.1).isNone = true := by
        cases hv : ds.vars hd.1 <;> simp_all
      obtain ⟨h1, h2, h3⟩ := ih (add_info r0 ("Optional variable " ++ hd.1 ++ " not present (" ++ hd.2 ++ ")"))
      refine ⟨?_, ?_, ?_⟩
      · rw [h1]; rfl
      · rw [h2]; rfl
      · rw [h3]
        simp [add_info, hn]

/-- C8 (amended): `validate_sediment_variables` produces no errors; the
absence of each of the five required derived variables is recorded in the
"missing" category (never "error"), while the absence of either of the two
optional ocean variables is recorded in the "info" category. -/
theorem validate_sediment_variables_spec (ds : Dataset) :
    (validate_sediment_variables ds).errors = [] ∧
    (validate_sediment_variables ds).missing =
      (required_sediment_vars.filter (fun p => (ds.vars p.1).isNone)).map
        (fun p => "MISSING: " ++ (p.1 ++ " (" ++ p.2 ++ ")")) ∧
    (validate_sediment_variables ds).info =
      (optional_sediment_vars.filter (fun p => (ds.vars p.1).isNone)).map
        (fun p => "INFO: " ++ ("Optional variable " ++ p.1 ++ " not present (" ++
          p.2 ++ ")")) ∧
    (∀ p ∈ required_sediment_vars, (ds.vars p.1).isNone →
      ("MISSING: " ++ (p.1 ++ " (" ++ p.2 ++ ")")) ∈
        (validate_sediment_variables ds).missing) := by
  have hreq := required_fold_characterization ds required_sediment_vars
    emptyValidationResult
  have hopt := optional_fold_characterization ds optional_sediment_vars
    (required_sediment_vars.foldl
      (fun r p =>
        if (ds.vars p.1).isSome then
          add_pass r ("Required variable " ++ p.1 ++ " present")
        else
          add_missing r (p.1 ++ " (" ++ p.2 ++ ")"))
      emptyValidationResult)
  have herr : (validate_sediment_variables ds).errors = [] := by
    simp only [validate_sediment_variables]
    rw [hopt.1, hreq.1]
    rfl
  have hmis : (validate_sediment_variables ds).missing =
      (required_sediment_vars.filter (fun p => (ds.vars p.1).isNone)).map
        (fun p => "MISSING: " ++ (p.1 ++ " (" ++ p.2 ++ ")")) := by
    simp only [validate_sediment_variables]
    rw [hopt.2.1, hreq.2.2]
    rfl
  have hinf : (validate_sediment_variables ds).info =
      (optional_sediment_vars.filter (fun p => (ds.vars p.1).isNone)).map
        (fun p => "INFO: " ++ ("Optional variable " ++ p.1 ++ " not present (" ++
          p.2 ++ ")")) := by
    simp only [validate_sediment_variables]
    rw [hopt.2.2, hreq.2.1]
    rfl
  refine ⟨herr, hmis, hinf, ?_⟩
  intro p hp hnone
  rw [hmis]
  exact List.mem_map.mpr ⟨p, List.mem_filter.mpr ⟨hp, hnone⟩, rfl⟩

/-- C8 witness: on a dataset with no variables at all, the absence of the
required variable `particulate_diameter` is recorded in the missing
category. -/
theorem validate_sediment_variables_spec_witness :
    ("MISSING: " ++ ("particulate_diameter" ++ " (" ++ "Particle diameter" ++ ")")) ∈
      (validate_sediment_variables
        (⟨1, 1, fun _ => none, fun _ => none⟩ : Dataset)).missing :=
  (validate_sediment_variables_spec
      (⟨1, 1, fun _ => none, fun _ => none⟩ : Dataset)).2.2.2
    ("particulate_diameter", "Particle diameter")
    (List.mem_cons_self _ _) rfl

/-- C8 counterexample: on a dataset with no variables all seven derived
variables are absent, yet only five missing records are produced; the
absence of `ocean_vertical_diffusivity` is recorded in the info category,
and the missing record that `add_missing` would have produced for it is not
present.  The claim that the absence of each of the seven is recorded in
the missing category is therefore false. -/
theorem validator_missing_category_cex :
    (validate_sediment_variables
      (⟨1, 1, fun _ => none, fun _ => none⟩ : Dataset)).missing.length = 5 ∧
    "MISSING: ocean_vertical_diffusivity (Ocean vertical mixing coefficient)" ∉
      (validate_sediment_variables
        (⟨1, 1, fun _ => none, fun _ => none⟩ : Dataset)).missing ∧
    "INFO: Optional variable ocean_vertical_diffusivity not present (Ocean vertical mixing coefficient)" ∈
      (validate_sediment_variables
        (⟨1, 1, fun _ => none, fun _ => none⟩ : Dataset)).info := by
  decide

/-- Embedding of the exit logic of the validator's `main`:
`return 0 if (result.is_valid() and result.has_all_required()) else 1`. -/
def validator_exit_code (r : ValidationResult) : ℕ :=
  if is_valid r && has_all_required r then 0 else 1

/-- C9: the validator exits with status 0 iff the accumulated result has no
errors and no missing required variables; warnings, informational messages
and passed checks never influence the exit status. -/
theorem validator_exit_code_spec (r : ValidationResult) :
    (validator_exit_code r = 0 ↔ r.errors = [] ∧ r.missing = []) ∧
    (∀ w i pa, validator_exit_code
      { r with warnings := w, info := i, passed := pa } =
        validator_exit_code r) := by
  constructor
  · unfold validator_exit_code is_valid has_all_required
    by_cases h1 : r.errors = [] <;> by_cases h2 : r.missing = [] <;>
      simp [h1, h2, List.isEmpty_iff]
  · intro w i pa
    rfl

/-- C4 witness: a concrete run at percentage 150 that passes the memory gate
raises after opening and estimating. -/
theorem create_fragments_invalid_percentage_after_open_witness :
    ((⟨1, 1, 1, 1000000, 150, true⟩ : RunConfig).percentage ≤ 0 ∨
      100 < (⟨1, 1, 1, 1000000, 150, true⟩ : RunConfig).percentage) ∧
    check_memory_safety (⟨1, 1, 1, 1000000, 150, true⟩ : RunConfig) = true ∧
    (create_fragments_run (⟨1, 1, 1, 1000000, 150, true⟩ : RunConfig)).2 = [] := by
  have hceil : ⌈((1 : ℕ) : ℚ) * (150 : ℚ) / 100⌉ = 2 :=
    ceil_eval (by norm_num) (by norm_num)
  have hsafe : check_memory_safety (⟨1, 1, 1, 1000000, 150, true⟩ : RunConfig)
      = true := by
    unfold check_memory_safety
    simp only [estimate_memory_requirements, hceil]
    norm_num
  have hp : ((⟨1, 1, 1, 1000000, 150, true⟩ : RunConfig).percentage ≤ 0 ∨
      100 < (⟨1, 1, 1, 1000000, 150, true⟩ : RunConfig).percentage) :=
    Or.inr (by norm_num)
  exact ⟨hp, hsafe,
    (create_fragments_invalid_percentage_after_open _ hp hsafe).2.2.2.2.2⟩
